import Mathlib

/-!
Shallow embedding of the MQTT dissector from `epan/dissectors/packet-mqtt.c`
(functions `get_mqtt_pdu_len`, `dissect_mqtt`, `dissect_mqtt_data`).

Modelling conventions:
* A `tvbuff_t` is a `List Nat` of byte values; the tvb handed to
  `dissect_mqtt` by `tcp_dissect_pdus` is exactly one frame
  (fixed-header byte + remaining-length bytes + `msg_len` body bytes).
* The tvb accessors (`tvb_get_guint8`, `tvb_get_ntohs`,
  `proto_tree_add_item` with an explicit length) raise a bounds
  exception when the access reaches past the end of the tvb; this is
  modelled as `Except` with the single error `DissectError.boundsError`.
* `guint8`/`guint16` values read from the buffer are kept as `Nat`
  (byte values are below 256 in any real buffer; nothing here depends
  on wrap-around).
* The `gint mqtt_msg_len` running counter is modelled as `Int`,
  since the C code lets it go negative.
* Per-conversation data `mqtt_conv` (a single `guint8
  runtime_proto_version`, zero-initialised by `wmem_new0`) is the
  `ConnState` threaded through `dissect_mqtt`.
-/

namespace Mqtt

/-- Errors of the embedded dissector.  `boundsError` models the tvb
bounds exception thrown by the `tvb_get_*` / `proto_tree_add_item`
accessors when a read reaches past the end of the frame (this is the
single mechanism by which the C code reports both a truncated
sub-field and an underrun inside a repeated-entry loop).
`malformedLength` and `needMoreBytes` come from the spec-modelled
remaining-length codec. -/
inductive DissectError where
  | boundsError
  | malformedLength
  | needMoreBytes
deriving DecidableEq, Repr

/-- Per-conversation state: `mqtt_conv` from packet-mqtt.c, holding
`runtime_proto_version` (zero until a CONNECT is dissected). -/
structure ConnState where
  runtime_proto_version : Nat
deriving DecidableEq, Repr

/-- Result of interpreting the low 4 bits of the fixed-header byte,
following the three branches at packet-mqtt.c:295-308. -/
inductive FlagLayout where
  | publishFlags (dup : Bool) (qos : Nat) (retain : Bool)
  | dupReserved (dup : Bool) (reserved3 : Nat)
  | reserved4 (reserved : Nat)
deriving DecidableEq, Repr

/-- `tvb_get_guint8 tvb off`: one byte, bounds exception past the end. -/
def tvb_get_guint8 (tvb : List Nat) (off : Nat) : Except DissectError Nat :=
  if off < tvb.length then .ok (tvb.getD off 0) else .error .boundsError

/-- `tvb_get_ntohs tvb off`: big-endian u16, bounds exception past the end. -/
def tvb_get_ntohs (tvb : List Nat) (off : Nat) : Except DissectError Nat :=
  if off + 1 < tvb.length then .ok (tvb.getD off 0 * 256 + tvb.getD (off + 1) 0)
  else .error .boundsError

/-- A `len`-byte field at `off` (as checked by `proto_tree_add_item`
with a non-negative length): the byte slice, or a bounds exception. -/
def tvb_get_bytes (tvb : List Nat) (off len : Nat) : Except DissectError (List Nat) :=
  if off + len ≤ tvb.length then .ok ((tvb.drop off).take len) else .error .boundsError

/-- `proto_tree_add_item` with a signed (`gint`) length, as used for the
PUBLISH message at packet-mqtt.c:422: length -1 means "to the end of the
tvb", any other negative length raises an exception. -/
def tvb_get_signed_len (tvb : List Nat) (off : Nat) (len : Int) :
    Except DissectError (List Nat) :=
  if len = -1 then
    if off ≤ tvb.length then .ok (tvb.drop off) else .error .boundsError
  else if len < 0 then .error .boundsError
  else tvb_get_bytes tvb off len.toNat

/-- Modelled from the spec: `dissect_uleb128` (declared in `epan/dwarf.h`,
its definition is not part of this repository snapshot) as constrained by
§4.1 VarLengthCodec.  Each byte contributes its low 7 bits with positional
multipliers 1, 128, 128², 128³; bit 7 signals continuation; decoding
stops after the first byte with bit 7 clear; it fails with
`malformedLength` if a 4th byte still has bit 7 set (a 5th byte is
forbidden), and with `needMoreBytes` if the input ends before the length
field is complete.  Returns (value, bytes consumed). -/
def decodeVarLen (bs : List Nat) : Except DissectError (Nat × Nat) :=
  match bs with
  | [] => .error .needMoreBytes
  | b0 :: rest0 =>
    if b0 &&& 128 = 0 then .ok (b0 &&& 127, 1)
    else match rest0 with
      | [] => .error .needMoreBytes
      | b1 :: rest1 =>
        if b1 &&& 128 = 0 then .ok ((b0 &&& 127) + 128 * (b1 &&& 127), 2)
        else match rest1 with
          | [] => .error .needMoreBytes
          | b2 :: rest2 =>
            if b2 &&& 128 = 0 then
              .ok ((b0 &&& 127) + 128 * (b1 &&& 127) + 128 ^ 2 * (b2 &&& 127), 3)
            else match rest2 with
              | [] => .error .needMoreBytes
              | b3 :: _ =>
                if b3 &&& 128 = 0 then
                  .ok ((b0 &&& 127) + 128 * (b1 &&& 127) + 128 ^ 2 * (b2 &&& 127)
                       + 128 ^ 3 * (b3 &&& 127), 4)
                else .error .malformedLength

/-- `get_mqtt_pdu_len` (packet-mqtt.c:228-238): probes the frame length
at the start of a buffered sequence.  `GET_MQTT_PDU_LEN(msg_len,
len_offset) = msg_len + len_offset + MQTT_HDR_SIZE_BEFORE_LEN`. -/
def get_mqtt_pdu_len (tvb : List Nat) : Except DissectError Nat :=
  match decodeVarLen (tvb.drop 1) with
  | .error e => .error e
  | .ok (msg_len, len_offset) => .ok (msg_len + len_offset + 1)

/-- Interpretation of the fixed-header flag bits, packet-mqtt.c:295-308:
PUBLISH gets DUP (0x08) / QoS (0x06) / RETAIN (0x01); PUBREL, SUBSCRIBE
and UNSUBSCRIBE on a v3.1 conversation get DUP (0x08) plus a 3-bit
reserved field (0x07); everything else gets a plain 4-bit reserved
field (0x0F). -/
def headerFlagInterp (fixedHdr protoVersion : Nat) : FlagLayout :=
  if fixedHdr >>> 4 = 3 then
    .publishFlags (fixedHdr &&& 8 != 0) ((fixedHdr &&& 6) >>> 1) (fixedHdr &&& 1 != 0)
  else if protoVersion = 3 ∧ (fixedHdr >>> 4 = 6 ∨ fixedHdr >>> 4 = 8 ∨ fixedHdr >>> 4 = 10) then
    .dupReserved (fixedHdr &&& 8 != 0) (fixedHdr &&& 7)
  else
    .reserved4 (fixedHdr &&& 15)

/-- Decoded CONNECT variable header and payload (packet-mqtt.c:318-389). -/
structure ConnectData where
  protoNameLen : Nat
  protoName : List Nat
  protoVersion : Nat
  connectFlags : Nat
  keepAlive : Nat
  clientIdLen : Nat
  clientId : List Nat
  willTopic : Option (Nat × List Nat)
  willMsg : Option (Nat × List Nat)
  userName : Option (Nat × List Nat)
  passwd : Option (Nat × List Nat)
deriving DecidableEq, Repr

/-- Decoded CONNACK variable header (packet-mqtt.c:391-402): the first
byte is split by the masks `MQTT_CONACKMASK_RESERVED` (0xFE) and
`MQTT_CONACKMASK_SP` (0x01), the second byte is the return code. -/
structure ConnackData where
  reservedMask : Nat
  sessionPresent : Nat
  returnCode : Nat
deriving DecidableEq, Repr

/-- Decoded PUBLISH variable header and payload (packet-mqtt.c:404-423). -/
structure PublishData where
  topicLen : Nat
  topic : List Nat
  msgId : Option Nat
  message : List Nat
deriving DecidableEq, Repr

/-- One decoded packet body per arm of the `switch (mqtt_msg_type)` in
`dissect_mqtt`; `empty` covers PINGREQ/PINGRESP/DISCONNECT and the
types the switch does not handle. -/
inductive PacketBody where
  | connect (d : ConnectData)
  | connack (d : ConnackData)
  | publish (d : PublishData)
  | subscribe (msgId : Nat) (entries : List (Nat × List Nat × Nat))
  | suback (msgId : Nat) (returnCodes : List Nat)
  | unsubscribe (msgId : Nat) (entries : List (Nat × List Nat))
  | msgIdOnly (msgId : Nat)
  | empty
deriving DecidableEq, Repr

/-- The result of one `dissect_mqtt` call. -/
structure DecodedPacket where
  msgType : Nat
  hdrFlags : FlagLayout
  msgLen : Nat
  body : PacketBody
deriving DecidableEq, Repr

/-- An optional length-prefixed string field of the CONNECT payload:
when `present`, a u16 length followed by that many bytes, advancing the
offset; otherwise nothing (packet-mqtt.c:354-388, the four guarded
blocks all have this shape). -/
def optField (tvb : List Nat) (off : Nat) (present : Bool) :
    Except DissectError (Option (Nat × List Nat) × Nat) :=
  if present then
    match tvb_get_ntohs tvb off with
    | .error e => .error e
    | .ok len =>
      match tvb_get_bytes tvb (off + 2) len with
      | .error e => .error e
      | .ok s => .ok (some (len, s), off + 2 + len)
  else .ok (none, off)

/-- The CONNECT arm (packet-mqtt.c:318-389).  The conversation state is
overwritten with the protocol-version byte at packet-mqtt.c:326, i.e.
as soon as that byte has been read, before the rest of the packet is
dissected; the UserName and Password fields are dissected only when
their flag bit is set and `tvb_reported_length_remaining` is positive. -/
def connectBody (tvb : List Nat) (off : Nat) (st : ConnState) :
    Except DissectError PacketBody × ConnState :=
  match tvb_get_ntohs tvb off with
  | .error e => (.error e, st)
  | .ok protoLen =>
    match tvb_get_bytes tvb (off + 2) protoLen with
    | .error e => (.error e, st)
    | .ok protoName =>
      match tvb_get_guint8 tvb (off + 2 + protoLen) with
      | .error e => (.error e, st)
      | .ok ver =>
        let st2 : ConnState := ⟨ver⟩
        let o1 := off + 2 + protoLen + 1
        match tvb_get_guint8 tvb o1 with
        | .error e => (.error e, st2)
        | .ok conFlags =>
          match tvb_get_ntohs tvb (o1 + 1) with
          | .error e => (.error e, st2)
          | .ok keepAlive =>
            match tvb_get_ntohs tvb (o1 + 3) with
            | .error e => (.error e, st2)
            | .ok cidLen =>
              match tvb_get_bytes tvb (o1 + 5) cidLen with
              | .error e => (.error e, st2)
              | .ok cid =>
                match optField tvb (o1 + 5 + cidLen) (conFlags &&& 4 != 0) with
                | .error e => (.error e, st2)
                | .ok (willTopic, o2) =>
                  match optField tvb o2 (conFlags &&& 4 != 0) with
                  | .error e => (.error e, st2)
                  | .ok (willMsg, o3) =>
                    match optField tvb o3
                        ((conFlags &&& 128 != 0) && decide (o3 < tvb.length)) with
                    | .error e => (.error e, st2)
                    | .ok (user, o4) =>
                      match optField tvb o4
                          ((conFlags &&& 64 != 0) && decide (o4 < tvb.length)) with
                      | .error e => (.error e, st2)
                      | .ok (pass, _) =>
                        (.ok (.connect ⟨protoLen, protoName, ver, conFlags, keepAlive,
                                        cidLen, cid, willTopic, willMsg, user, pass⟩), st2)

/-- The CONNACK arm (packet-mqtt.c:391-402). -/
def connackBody (tvb : List Nat) (off : Nat) : Except DissectError PacketBody :=
  match tvb_get_guint8 tvb off with
  | .error e => .error e
  | .ok ackFlags =>
    match tvb_get_guint8 tvb (off + 1) with
    | .error e => .error e
    | .ok code => .ok (.connack ⟨ackFlags &&& 254, ackFlags &&& 1, code⟩)

/-- The PUBLISH arm (packet-mqtt.c:404-423): TopicLen, Topic, a
MessageId only when the QoS bits (`MQTT_MASK_QOS` = 0x06) are non-zero,
then the application message sized by the running `mqtt_msg_len`
counter. -/
def publishBody (tvb : List Nat) (fixedHdr off msg_len : Nat) :
    Except DissectError PacketBody :=
  match tvb_get_ntohs tvb off with
  | .error e => .error e
  | .ok topicLen =>
    match tvb_get_bytes tvb (off + 2) topicLen with
    | .error e => .error e
    | .ok topic =>
      let m1 : Int := (msg_len : Int) - 2 - topicLen
      if fixedHdr &&& 6 ≠ 0 then
        match tvb_get_ntohs tvb (off + 2 + topicLen) with
        | .error e => .error e
        | .ok msgId =>
          match tvb_get_signed_len tvb (off + 2 + topicLen + 2) (m1 - 2) with
          | .error e => .error e
          | .ok msg => .ok (.publish ⟨topicLen, topic, some msgId, msg⟩)
      else
        match tvb_get_signed_len tvb (off + 2 + topicLen) m1 with
        | .error e => .error e
        | .ok msg => .ok (.publish ⟨topicLen, topic, none, msg⟩)

/-- The SUBSCRIBE repeated-entry loop (packet-mqtt.c:432-446): while the
running counter is positive, read TopicLen (u16), Topic, and a
RequestedQoS byte, decrementing the counter by each field's width. -/
def subscribeLoop (tvb : List Nat) (off : Nat) (m : Int) :
    Except DissectError (List (Nat × List Nat × Nat)) :=
  if h : 0 < m then
    match tvb_get_ntohs tvb off with
    | .error e => .error e
    | .ok strLen =>
      match tvb_get_bytes tvb (off + 2) strLen with
      | .error e => .error e
      | .ok topic =>
        match tvb_get_guint8 tvb (off + 2 + strLen) with
        | .error e => .error e
        | .ok qos =>
          match subscribeLoop tvb (off + 2 + strLen + 1) (m - 2 - strLen - 1) with
          | .error e => .error e
          | .ok rest => .ok ((strLen, topic, qos) :: rest)
  else .ok []
termination_by m.toNat
decreasing_by simp_wf; omega

/-- The UNSUBSCRIBE repeated-entry loop (packet-mqtt.c:456-466): like
SUBSCRIBE but without the QoS byte. -/
def unsubscribeLoop (tvb : List Nat) (off : Nat) (m : Int) :
    Except DissectError (List (Nat × List Nat)) :=
  if h : 0 < m then
    match tvb_get_ntohs tvb off with
    | .error e => .error e
    | .ok strLen =>
      match tvb_get_bytes tvb (off + 2) strLen with
      | .error e => .error e
      | .ok topic =>
        match unsubscribeLoop tvb (off + 2 + strLen) (m - 2 - strLen) with
        | .error e => .error e
        | .ok rest => .ok ((strLen, topic) :: rest)
  else .ok []
termination_by m.toNat
decreasing_by simp_wf; omega

/-- The SUBACK granted-QoS loop (packet-mqtt.c:475-479): one byte per
entry, counter decremented by exactly one. -/
def subackLoop (tvb : List Nat) (off : Nat) (m : Int) :
    Except DissectError (List Nat) :=
  if h : 0 < m then
    match tvb_get_guint8 tvb off with
    | .error e => .error e
    | .ok q =>
      match subackLoop tvb (off + 1) (m - 1) with
      | .error e => .error e
      | .ok rest => .ok (q :: rest)
  else .ok []
termination_by m.toNat
decreasing_by simp_wf; omega

/-- The SUBSCRIBE arm (packet-mqtt.c:425-447): MessageId, then the loop
started with `mqtt_msg_len -= 2`. -/
def subscribeBody (tvb : List Nat) (off msg_len : Nat) : Except DissectError PacketBody :=
  match tvb_get_ntohs tvb off with
  | .error e => .error e
  | .ok msgId =>
    match subscribeLoop tvb (off + 2) ((msg_len : Int) - 2) with
    | .error e => .error e
    | .ok entries => .ok (.subscribe msgId entries)

/-- The UNSUBSCRIBE arm (packet-mqtt.c:449-467). -/
def unsubscribeBody (tvb : List Nat) (off msg_len : Nat) : Except DissectError PacketBody :=
  match tvb_get_ntohs tvb off with
  | .error e => .error e
  | .ok msgId =>
    match unsubscribeLoop tvb (off + 2) ((msg_len : Int) - 2) with
    | .error e => .error e
    | .ok entries => .ok (.unsubscribe msgId entries)

/-- The SUBACK arm (packet-mqtt.c:469-480). -/
def subackBody (tvb : List Nat) (off msg_len : Nat) : Except DissectError PacketBody :=
  match tvb_get_ntohs tvb off with
  | .error e => .error e
  | .ok msgId =>
    match subackLoop tvb (off + 2) ((msg_len : Int) - 2) with
    | .error e => .error e
    | .ok codes => .ok (.suback msgId codes)

/-- PUBACK / PUBREC / PUBREL / PUBCOMP / UNSUBACK: MessageId only
(packet-mqtt.c:483-489). -/
def msgIdBody (tvb : List Nat) (off : Nat) : Except DissectError PacketBody :=
  match tvb_get_ntohs tvb off with
  | .error e => .error e
  | .ok msgId => .ok (.msgIdOnly msgId)

/-- The `switch (mqtt_msg_type)` of `dissect_mqtt`
(packet-mqtt.c:316-496).  Only the CONNECT arm touches the conversation
state; PINGREQ/PINGRESP/DISCONNECT have no variable header, and types
0 and 15 are not handled by the switch at all. -/
def dissectBody (tvb : List Nat) (fixedHdr off msg_len : Nat) (st : ConnState) :
    Except DissectError PacketBody × ConnState :=
  let t := fixedHdr >>> 4
  if t = 1 then connectBody tvb off st
  else if t = 2 then (connackBody tvb off, st)
  else if t = 3 then (publishBody tvb fixedHdr off msg_len, st)
  else if t = 8 then (subscribeBody tvb off msg_len, st)
  else if t = 9 then (subackBody tvb off msg_len, st)
  else if t = 10 then (unsubscribeBody tvb off msg_len, st)
  else if t = 4 ∨ t = 5 ∨ t = 6 ∨ t = 7 ∨ t = 11 then (msgIdBody tvb off, st)
  else (.ok .empty, st)

/-- `dissect_mqtt` (packet-mqtt.c:241-499) on one complete frame: read
the fixed-header byte, re-decode the remaining length, interpret the
flag bits against the conversation state, and dispatch on the packet
type.  Returns the dissection result together with the (possibly
updated) conversation state. -/
def dissect_mqtt (tvb : List Nat) (st : ConnState) :
    Except DissectError DecodedPacket × ConnState :=
  match tvb_get_guint8 tvb 0 with
  | .error e => (.error e, st)
  | .ok fixedHdr =>
    match decodeVarLen (tvb.drop 1) with
    | .error e => (.error e, st)
    | .ok (msg_len, len_offset) =>
      let flags := headerFlagInterp fixedHdr st.runtime_proto_version
      match dissectBody tvb fixedHdr (1 + len_offset) msg_len st with
      | (.error e, st2) => (.error e, st2)
      | (.ok body, st2) => (.ok ⟨fixedHdr >>> 4, flags, msg_len, body⟩, st2)

/-! Spec-side definitions, written from the words of the specification,
to be compared with the definitions embedded from the source. -/

/-- Spec view of the stored protocol version: unknown (no CONNECT seen,
the zero-initialised `mqtt_conv`) is `none`. -/
def versionView (st : ConnState) : Option Nat :=
  if st.runtime_proto_version = 0 then none else some st.runtime_proto_version

/-- The flag-bit rule exactly as the specification states it: PUBLISH
gets DUP, 2-bit QoS and RETAIN; PUBREL, SUBSCRIBE and UNSUBSCRIBE get
DUP plus 3-bit reserved when the stored protocol version is known to be
v3.1 (3); in every other case, unknown version included, the 4 bits are
a plain reserved field. -/
def specFlagRule (fixedHdr : Nat) (version : Option Nat) : FlagLayout :=
  if fixedHdr >>> 4 = 3 then
    .publishFlags (fixedHdr &&& 8 != 0) ((fixedHdr &&& 6) >>> 1) (fixedHdr &&& 1 != 0)
  else if version = some 3 ∧ (fixedHdr >>> 4 = 6 ∨ fixedHdr >>> 4 = 8 ∨ fixedHdr >>> 4 = 10) then
    .dupReserved (fixedHdr &&& 8 != 0) (fixedHdr &&& 7)
  else
    .reserved4 (fixedHdr &&& 15)

/-- Whether a byte region splits exactly into whole SUBSCRIBE entries
(u16 topic-filter length, that many topic bytes, one QoS byte). -/
def subsEntriesSplit : List Nat → Bool
  | [] => true
  | [_] => false
  | b1 :: b2 :: rest =>
    if b1 * 256 + b2 + 1 ≤ rest.length then
      subsEntriesSplit (rest.drop (b1 * 256 + b2 + 1))
    else false
termination_by l => l.length
decreasing_by simp; omega

/-- Whether a byte region splits exactly into whole UNSUBSCRIBE entries
(u16 topic-filter length followed by that many topic bytes). -/
def unsubEntriesSplit : List Nat → Bool
  | [] => true
  | [_] => false
  | b1 :: b2 :: rest =>
    if b1 * 256 + b2 ≤ rest.length then
      unsubEntriesSplit (rest.drop (b1 * 256 + b2))
    else false
termination_by l => l.length
decreasing_by simp; omega

/-- Whether a byte region splits exactly into whole SUBACK entries;
each entry is a single return-code byte, so any region does. -/
def subackEntriesSplit : List Nat → Bool
  | [] => true
  | _ :: rest => subackEntriesSplit rest

/-- Dispatch of the entry-splitting predicate on the packet type. -/
def entriesSplitFor (msgType : Nat) (region : List Nat) : Bool :=
  if msgType = 8 then subsEntriesSplit region
  else if msgType = 10 then unsubEntriesSplit region
  else subackEntriesSplit region

/-- Width on the wire of an optional length-prefixed CONNECT field. -/
def fieldSize : Option (Nat × List Nat) → Nat
  | some (len, _) => 2 + len
  | none => 0

/-- Offset (within the frame) at which the CONNECT UserName field would
start, reconstructed from the decoded fixed-width and optional fields;
`off` is the offset of the variable header. -/
def userOff (off : Nat) (d : ConnectData) : Nat :=
  off + 2 + d.protoNameLen + 6 + d.clientIdLen + fieldSize d.willTopic + fieldSize d.willMsg

/-- Whether one optional length-prefixed CONNECT field fits inside the
frame at `off`: when present, its u16 length must be readable and its
declared length must not run past the frame's end; returns the offset
after the field, or `none` on an overrun. -/
def optFieldFits (tvb : List Nat) (off : Nat) (present : Bool) : Option Nat :=
  if present then
    if off + 1 < tvb.length then
      if off + 2 + (tvb.getD off 0 * 256 + tvb.getD (off + 1) 0) ≤ tvb.length then
        some (off + 2 + (tvb.getD off 0 * 256 + tvb.getD (off + 1) 0))
      else none
    else none
  else some off

/-- Whether a field of signed length `len` at `off` fits (mirroring the
`proto_tree_add_item` length semantics: -1 reads to the end, any other
negative length is an error). -/
def signedLenFits (tvb : List Nat) (off : Nat) (len : Int) : Bool :=
  if len = -1 then decide (off ≤ tvb.length)
  else if len < 0 then false
  else decide (off + len.toNat ≤ tvb.length)

/-- Whether the CONNECT variable header and payload fit inside the
frame: walks ProtoNameLen+ProtoName, version, connect flags, KeepAlive,
ClientIdLen+ClientId and the four optional length-prefixed fields
(will topic, will message, user name, password) purely over the frame
bytes, checking every cursor advance against the frame's end. -/
def connectFits (tvb : List Nat) (off : Nat) : Bool :=
  if off + 1 < tvb.length then
    let protoLen := tvb.getD off 0 * 256 + tvb.getD (off + 1) 0
    if off + 2 + protoLen ≤ tvb.length then
      if off + 2 + protoLen < tvb.length then
        let o1 := off + 2 + protoLen + 1
        if o1 < tvb.length then
          let conFlags := tvb.getD o1 0
          if o1 + 1 + 1 < tvb.length then
            if o1 + 3 + 1 < tvb.length then
              let cidLen := tvb.getD (o1 + 3) 0 * 256 + tvb.getD (o1 + 3 + 1) 0
              if o1 + 5 + cidLen ≤ tvb.length then
                match optFieldFits tvb (o1 + 5 + cidLen) (conFlags &&& 4 != 0) with
                | none => false
                | some o2 =>
                  match optFieldFits tvb o2 (conFlags &&& 4 != 0) with
                  | none => false
                  | some o3 =>
                    match optFieldFits tvb o3
                        ((conFlags &&& 128 != 0) && decide (o3 < tvb.length)) with
                    | none => false
                    | some o4 =>
                      match optFieldFits tvb o4
                          ((conFlags &&& 64 != 0) && decide (o4 < tvb.length)) with
                      | none => false
                      | some _ => true
              else false
            else false
          else false
        else false
      else false
    else false
  else false

/-- Whether the PUBLISH variable header and payload fit inside the
frame: TopicLen+Topic, the MessageId when the QoS bits are set, and the
application message sized by the running counter. -/
def publishFits (tvb : List Nat) (fixedHdr off msg_len : Nat) : Bool :=
  if off + 1 < tvb.length then
    let topicLen := tvb.getD off 0 * 256 + tvb.getD (off + 1) 0
    if off + 2 + topicLen ≤ tvb.length then
      let m1 : Int := (msg_len : Int) - 2 - topicLen
      if fixedHdr &&& 6 ≠ 0 then
        if off + 2 + topicLen + 1 < tvb.length then
          signedLenFits tvb (off + 2 + topicLen + 2) (m1 - 2)
        else false
      else signedLenFits tvb (off + 2 + topicLen) m1
    else false
  else false

/-! Helper lemmas about the tvb accessors and the loop embeddings. -/

theorem drop_cons_getD (tvb : List Nat) (off : Nat) (h : off < tvb.length) :
    tvb.drop off = tvb.getD off 0 :: tvb.drop (off + 1) := by
  induction tvb generalizing off with
  | nil => simp at h
  | cons a t ih =>
    cases off with
    | zero => simp
    | succ o =>
      simp only [List.length_cons, Nat.succ_lt_succ_iff] at h
      simpa [List.getD_cons_succ] using ih o h

theorem subackEntriesSplit_true (l : List Nat) : subackEntriesSplit l = true := by
  induction l with
  | nil => rfl
  | cons a t ih => simpa [subackEntriesSplit] using ih

/-- When the running counter measures exactly the bytes left in the
frame, a SUBSCRIBE entry region that does not split into whole entries
makes the loop read past the end of the frame. -/
theorem subscribeLoop_err_of_not_split (tvb : List Nat) :
    ∀ (n : Nat) (off : Nat) (m : Int), m.toNat = n →
      (off : Int) + m = (tvb.length : Int) → 0 ≤ m →
      subsEntriesSplit (tvb.drop off) = false →
      subscribeLoop tvb off m = .error .boundsError := by
  intro n
  induction n using Nat.strong_induction_on with
  | _ n ih =>
    intro off m hn hinv hm hsplit
    rw [subscribeLoop]
    by_cases hpos : 0 < m
    · rw [dif_pos hpos]
      by_cases h2 : off + 1 < tvb.length
      · have hoff : off < tvb.length := by omega
        have hdrop : tvb.drop off =
            tvb.getD off 0 :: tvb.getD (off + 1) 0 :: tvb.drop (off + 2) := by
          rw [drop_cons_getD tvb off hoff, drop_cons_getD tvb (off + 1) h2]
        set b1 := tvb.getD off 0 with hb1
        set b2 := tvb.getD (off + 1) 0 with hb2
        have hntohs : tvb_get_ntohs tvb off = .ok (b1 * 256 + b2) := by
          simp only [tvb_get_ntohs]
          rw [if_pos h2]
        set sl := b1 * 256 + b2 with hsl
        rw [hdrop] at hsplit
        rw [subsEntriesSplit] at hsplit
        have hrest : (tvb.drop (off + 2)).length = tvb.length - (off + 2) := by
          simp [List.length_drop]
        by_cases hfit : sl + 1 ≤ (tvb.drop (off + 2)).length
        · rw [if_pos hfit] at hsplit
          have htopic : tvb_get_bytes tvb (off + 2) sl = .ok ((tvb.drop (off + 2)).take sl) := by
            simp only [tvb_get_bytes]
            rw [if_pos (by omega)]
          have hqos : tvb_get_guint8 tvb (off + 2 + sl) = .ok (tvb.getD (off + 2 + sl) 0) := by
            simp only [tvb_get_guint8]
            rw [if_pos (by omega)]
          have hdd : (tvb.drop (off + 2)).drop (sl + 1) = tvb.drop (off + 2 + sl + 1) := by
            rw [List.drop_drop]
            congr 1
          rw [hdd] at hsplit
          have hrec := ih (m - 2 - (sl : Int) - 1).toNat (by omega)
            (off + 2 + sl + 1) (m - 2 - (sl : Int) - 1) rfl (by push_cast; omega)
            (by omega) hsplit
          simp only [hntohs, htopic, hqos, hrec]
        · rw [if_neg hfit] at hsplit
          by_cases hinb : off + 2 + sl ≤ tvb.length
          · have htopic : tvb_get_bytes tvb (off + 2) sl =
                .ok ((tvb.drop (off + 2)).take sl) := by
              simp only [tvb_get_bytes]
              rw [if_pos (by omega)]
            have hqos : tvb_get_guint8 tvb (off + 2 + sl) = .error .boundsError := by
              simp only [tvb_get_guint8]
              rw [if_neg (by omega)]
            simp only [hntohs, htopic, hqos]
          · have htopic : tvb_get_bytes tvb (off + 2) sl = .error .boundsError := by
              simp only [tvb_get_bytes]
              rw [if_neg (by omega)]
            simp only [hntohs, htopic]
      · have hntohs : tvb_get_ntohs tvb off = .error .boundsError := by
          simp only [tvb_get_ntohs]
          rw [if_neg h2]
        simp only [hntohs]
    · exfalso
      have hm0 : m = 0 := by omega
      have : tvb.drop off = [] := by
        apply List.drop_eq_nil_of_le
        omega
      rw [this] at hsplit
      simp [subsEntriesSplit] at hsplit

/-- UNSUBSCRIBE analogue of `subscribeLoop_err_of_not_split`. -/
theorem unsubscribeLoop_err_of_not_split (tvb : List Nat) :
    ∀ (n : Nat) (off : Nat) (m : Int), m.toNat = n →
      (off : Int) + m = (tvb.length : Int) → 0 ≤ m →
      unsubEntriesSplit (tvb.drop off) = false →
      unsubscribeLoop tvb off m = .error .boundsError := by
  intro n
  induction n using Nat.strong_induction_on with
  | _ n ih =>
    intro off m hn hinv hm hsplit
    rw [unsubscribeLoop]
    by_cases hpos : 0 < m
    · rw [dif_pos hpos]
      by_cases h2 : off + 1 < tvb.length
      · have hoff : off < tvb.length := by omega
        have hdrop : tvb.drop off =
            tvb.getD off 0 :: tvb.getD (off + 1) 0 :: tvb.drop (off + 2) := by
          rw [drop_cons_getD tvb off hoff, drop_cons_getD tvb (off + 1) h2]
        set b1 := tvb.getD off 0 with hb1
        set b2 := tvb.getD (off + 1) 0 with hb2
        have hntohs : tvb_get_ntohs tvb off = .ok (b1 * 256 + b2) := by
          simp only [tvb_get_ntohs]
          rw [if_pos h2]
        set sl := b1 * 256 + b2 with hsl
        rw [hdrop] at hsplit
        rw [unsubEntriesSplit] at hsplit
        have hrest : (tvb.drop (off + 2)).length = tvb.length - (off + 2) := by
          simp [List.length_drop]
        by_cases hfit : sl ≤ (tvb.drop (off + 2)).length
        · rw [if_pos hfit] at hsplit
          have htopic : tvb_get_bytes tvb (off + 2) sl = .ok ((tvb.drop (off + 2)).take sl) := by
            simp only [tvb_get_bytes]
            rw [if_pos (by omega)]
          have hdd : (tvb.drop (off + 2)).drop sl = tvb.drop (off + 2 + sl) := by
            rw [List.drop_drop]
          rw [hdd] at hsplit
          have hrec := ih (m - 2 - (sl : Int)).toNat (by omega)
            (off + 2 + sl) (m - 2 - (sl : Int)) rfl (by push_cast; omega)
            (by omega) hsplit
          simp only [hntohs, htopic, hrec]
        · rw [if_neg hfit] at hsplit
          have htopic : tvb_get_bytes tvb (off + 2) sl = .error .boundsError := by
            simp only [tvb_get_bytes]
            rw [if_neg (by omega)]
          simp only [hntohs, htopic]
      · have hntohs : tvb_get_ntohs tvb off = .error .boundsError := by
          simp only [tvb_get_ntohs]
          rw [if_neg h2]
        simp only [hntohs]
    · exfalso
      have hm0 : m = 0 := by omega
      have : tvb.drop off = [] := by
        apply List.drop_eq_nil_of_le
        omega
      rw [this] at hsplit
      simp [unsubEntriesSplit] at hsplit

theorem flagInterp_eq_specRule (hdr : Nat) (st : ConnState) :
    headerFlagInterp hdr st.runtime_proto_version = specFlagRule hdr (versionView st) := by
  obtain ⟨v⟩ := st
  simp only [headerFlagInterp, specFlagRule, versionView]
  by_cases h3 : hdr >>> 4 = 3
  · simp [h3]
  · rw [if_neg h3, if_neg h3]
    by_cases hv0 : v = 0
    · subst hv0
      simp
    · by_cases hv : v = 3
      · subst hv
        simp
      · simp [hv0, hv]

/-- Dissection result decomposition: a successful `dissect_mqtt` always
packages the header-flag interpretation of byte 0 against the incoming
state. -/
theorem dissect_hdrFlags (tvb : List Nat) (st : ConnState) (b0 : Nat)
    (pkt : DecodedPacket) (st2 : ConnState)
    (h0 : tvb_get_guint8 tvb 0 = .ok b0)
    (hok : dissect_mqtt tvb st = (.ok pkt, st2)) :
    pkt.hdrFlags = headerFlagInterp b0 st.runtime_proto_version ∧ pkt.msgType = b0 >>> 4 := by
  unfold dissect_mqtt at hok
  rw [h0] at hok
  cases hlen : decodeVarLen (tvb.drop 1) with
  | error e =>
    rw [hlen] at hok
    simp at hok
  | ok p =>
    obtain ⟨ml, k⟩ := p
    rw [hlen] at hok
    dsimp only at hok
    rcases hbody : dissectBody tvb b0 (1 + k) ml st with ⟨res, st3⟩
    rw [hbody] at hok
    cases res with
    | error e => simp at hok
    | ok body =>
      dsimp only at hok
      obtain ⟨h1, h2⟩ := Prod.mk.injEq .. ▸ hok
      cases h1
      exact ⟨rfl, rfl⟩

/-- Unfolding of `dissect_mqtt` once byte 0 and the remaining length
are known. -/
theorem dissect_eq (tvb : List Nat) (st : ConnState) (b0 ml k : Nat)
    (h0 : tvb_get_guint8 tvb 0 = .ok b0)
    (hlen : decodeVarLen (tvb.drop 1) = .ok (ml, k)) :
    dissect_mqtt tvb st =
      (match dissectBody tvb b0 (1 + k) ml st with
       | (.error e, st2) => (.error e, st2)
       | (.ok body, st2) =>
         (.ok ⟨b0 >>> 4, headerFlagInterp b0 st.runtime_proto_version, ml, body⟩, st2)) := by
  unfold dissect_mqtt
  rw [h0, hlen]

/-- C1: for every complete frame, the fixed-header flag bits are
interpreted by exactly the spec rule: PUBLISH gets DUP, 2-bit QoS and
RETAIN; PUBREL, SUBSCRIBE and UNSUBSCRIBE get DUP plus a 3-bit reserved
field exactly when the stored protocol version is v3.1 (3); in every
other case — a connection with no CONNECT seen (unknown version)
included — the bits are a plain 4-bit reserved field. -/
theorem mqtt_header_flag_rule :
    (∀ hdr st, headerFlagInterp hdr st.runtime_proto_version
        = specFlagRule hdr (versionView st)) ∧
    (∀ tvb st b0 pkt st2, tvb_get_guint8 tvb 0 = .ok b0 →
        dissect_mqtt tvb st = (.ok pkt, st2) →
        pkt.hdrFlags = specFlagRule b0 (versionView st)) := by
  refine ⟨flagInterp_eq_specRule, ?_⟩
  intro tvb st b0 pkt st2 h0 hok
  rw [(dissect_hdrFlags tvb st b0 pkt st2 h0 hok).1]
  exact flagInterp_eq_specRule b0 st

/-- Witness for C1: a PUBREL frame on a v3.1 conversation is
interpreted with the DUP + 3-bit-reserved layout. -/
theorem mqtt_header_flag_rule_witness :
    (⟨6, FlagLayout.dupReserved false 2, 2, .msgIdOnly 5⟩ : DecodedPacket).hdrFlags
      = specFlagRule 98 (versionView ⟨3⟩) :=
  mqtt_header_flag_rule.2 [98, 2, 0, 5] ⟨3⟩ 98
    ⟨6, FlagLayout.dupReserved false 2, 2, .msgIdOnly 5⟩ ⟨3⟩ rfl rfl

theorem subscribeBody_err (tvb : List Nat) (k msg_len : Nat)
    (hframe : tvb.length = 1 + k + msg_len) (hm : 2 ≤ msg_len)
    (hsplit : subsEntriesSplit (tvb.drop (1 + k + 2)) = false) :
    subscribeBody tvb (1 + k) msg_len = .error .boundsError := by
  have hnt : tvb_get_ntohs tvb (1 + k)
      = .ok (tvb.getD (1 + k) 0 * 256 + tvb.getD (1 + k + 1) 0) := by
    simp only [tvb_get_ntohs]
    rw [if_pos (by omega)]
  have hloop := subscribeLoop_err_of_not_split tvb ((msg_len : Int) - 2).toNat
    (1 + k + 2) ((msg_len : Int) - 2) rfl (by push_cast; omega) (by omega) hsplit
  unfold subscribeBody
  rw [hnt]
  dsimp only
  rw [hloop]

theorem unsubscribeBody_err (tvb : List Nat) (k msg_len : Nat)
    (hframe : tvb.length = 1 + k + msg_len) (hm : 2 ≤ msg_len)
    (hsplit : unsubEntriesSplit (tvb.drop (1 + k + 2)) = false) :
    unsubscribeBody tvb (1 + k) msg_len = .error .boundsError := by
  have hnt : tvb_get_ntohs tvb (1 + k)
      = .ok (tvb.getD (1 + k) 0 * 256 + tvb.getD (1 + k + 1) 0) := by
    simp only [tvb_get_ntohs]
    rw [if_pos (by omega)]
  have hloop := unsubscribeLoop_err_of_not_split tvb ((msg_len : Int) - 2).toNat
    (1 + k + 2) ((msg_len : Int) - 2) rfl (by push_cast; omega) (by omega) hsplit
  unfold unsubscribeBody
  rw [hnt]
  dsimp only
  rw [hloop]

/-- C2: a SUBSCRIBE, UNSUBSCRIBE or SUBACK frame whose repeated-entry
region does not split into whole entries is rejected with an error (the
tvb bounds exception, which is how the dissector surfaces an underrun
inside its repeated-entry loops) instead of being silently decoded.
For SUBACK the antecedent can never hold, since each entry is a single
byte; for SUBSCRIBE and UNSUBSCRIBE the loop's read past the end of the
frame raises the error. -/
theorem mqtt_underrun_in_loop (tvb : List Nat) (st : ConnState) (b0 msg_len k : Nat)
    (h0 : tvb_get_guint8 tvb 0 = .ok b0)
    (htype : b0 >>> 4 = 8 ∨ b0 >>> 4 = 9 ∨ b0 >>> 4 = 10)
    (hlen : decodeVarLen (tvb.drop 1) = .ok (msg_len, k))
    (hframe : tvb.length = 1 + k + msg_len)
    (hm : 2 ≤ msg_len)
    (hsplit : entriesSplitFor (b0 >>> 4) (tvb.drop (1 + k + 2)) = false) :
    (dissect_mqtt tvb st).1 = .error .boundsError := by
  rw [dissect_eq tvb st b0 msg_len k h0 hlen]
  rcases htype with ht | ht | ht
  · rw [ht] at hsplit
    simp only [entriesSplitFor, if_pos rfl] at hsplit
    have hbody : dissectBody tvb b0 (1 + k) msg_len st
        = (subscribeBody tvb (1 + k) msg_len, st) := by
      simp [dissectBody, ht]
    rw [hbody, subscribeBody_err tvb k msg_len hframe hm hsplit]
  · rw [ht] at hsplit
    simp [entriesSplitFor, subackEntriesSplit_true] at hsplit
  · rw [ht] at hsplit
    simp only [entriesSplitFor] at hsplit
    norm_num at hsplit
    have hbody : dissectBody tvb b0 (1 + k) msg_len st
        = (unsubscribeBody tvb (1 + k) msg_len, st) := by
      simp [dissectBody, ht]
    rw [hbody, unsubscribeBody_err tvb k msg_len hframe hm hsplit]

/-- Witness for C2: a SUBSCRIBE frame with remaining length 3 whose
entry region is a single stray byte (a partial entry) is rejected. -/
theorem mqtt_underrun_in_loop_witness :
    (dissect_mqtt [130, 3, 0, 1, 65] ⟨0⟩).1 = .error .boundsError :=
  mqtt_underrun_in_loop [130, 3, 0, 1, 65] ⟨0⟩ 130 3 1 rfl (Or.inl rfl) rfl rfl
    (by omega) (by simp [entriesSplitFor, subsEntriesSplit])

/-- C3 (amended): if the first four bytes all have bit 7 set, decoding
the remaining length fails with `malformedLength` (a 5th continuation
byte is forbidden); if a byte with bit 7 clear occurs among the first
four, decoding stops at the first such byte, consuming between 1 and 4
bytes; if the input ends before either of those (fewer than 4 bytes,
all with bit 7 set), decoding reports `needMoreBytes` instead of
stopping. -/
theorem varlen_decode_rule (bs : List Nat) :
    ((∀ i, i < 4 → bs.getD i 0 &&& 128 ≠ 0) →
        decodeVarLen bs = .error .malformedLength) ∧
    (∀ j, j < 4 → j < bs.length → (∀ i, i < j → bs.getD i 0 &&& 128 ≠ 0) →
        bs.getD j 0 &&& 128 = 0 →
        ∃ v, decodeVarLen bs = .ok (v, j + 1) ∧ 1 ≤ j + 1 ∧ j + 1 ≤ 4) ∧
    (bs.length < 4 → (∀ i, i < bs.length → bs.getD i 0 &&& 128 ≠ 0) →
        decodeVarLen bs = .error .needMoreBytes) := by
  rcases bs with _ | ⟨a, _ | ⟨b, _ | ⟨c, _ | ⟨d, t⟩⟩⟩⟩
  · refine ⟨fun h => absurd (h 0 (by omega)) (by simp), ?_, fun _ _ => rfl⟩
    intro j _ hlen
    simp at hlen
  · refine ⟨fun h => absurd (h 1 (by omega)) (by simp), ?_, ?_⟩
    · intro j _ hlen hpre hj
      simp only [List.length_cons, List.length_nil] at hlen
      interval_cases j
      simp only [List.getD_cons_zero] at hj
      exact ⟨a &&& 127, by simp [decodeVarLen, hj], by omega, by omega⟩
    · intro _ hall
      have ha := hall 0 (by simp)
      simp only [List.getD_cons_zero] at ha
      simp [decodeVarLen, ha]
  · refine ⟨fun h => absurd (h 2 (by omega)) (by simp), ?_, ?_⟩
    · intro j _ hlen hpre hj
      simp only [List.length_cons, List.length_nil] at hlen
      interval_cases j
      · simp only [List.getD_cons_zero] at hj
        exact ⟨a &&& 127, by simp [decodeVarLen, hj], by omega, by omega⟩
      · have ha := hpre 0 (by omega)
        simp only [List.getD_cons_zero] at ha
        simp only [List.getD_cons_succ, List.getD_cons_zero] at hj
        exact ⟨(a &&& 127) + 128 * (b &&& 127), by simp [decodeVarLen, ha, hj], by omega, by omega⟩
    · intro _ hall
      have ha := hall 0 (by simp)
      have hb := hall 1 (by simp)
      simp only [List.getD_cons_zero, List.getD_cons_succ] at ha hb
      simp [decodeVarLen, ha, hb]
  · refine ⟨fun h => absurd (h 3 (by omega)) (by simp), ?_, ?_⟩
    · intro j _ hlen hpre hj
      simp only [List.length_cons, List.length_nil] at hlen
      interval_cases j
      · simp only [List.getD_cons_zero] at hj
        exact ⟨a &&& 127, by simp [decodeVarLen, hj], by omega, by omega⟩
      · have ha := hpre 0 (by omega)
        simp only [List.getD_cons_zero] at ha
        simp only [List.getD_cons_succ, List.getD_cons_zero] at hj
        exact ⟨(a &&& 127) + 128 * (b &&& 127), by simp [decodeVarLen, ha, hj], by omega, by omega⟩
      · have ha := hpre 0 (by omega)
        have hb := hpre 1 (by omega)
        simp only [List.getD_cons_zero, List.getD_cons_succ] at ha hb
        simp only [List.getD_cons_succ, List.getD_cons_zero] at hj
        exact ⟨(a &&& 127) + 128 * (b &&& 127) + 128 ^ 2 * (c &&& 127),
          by simp [decodeVarLen, ha, hb, hj], by omega, by omega⟩
    · intro _ hall
      have ha := hall 0 (by simp)
      have hb := hall 1 (by simp)
      have hc := hall 2 (by simp)
      simp only [List.getD_cons_zero, List.getD_cons_succ] at ha hb hc
      simp [decodeVarLen, ha, hb, hc]
  · refine ⟨?_, ?_, ?_⟩
    · intro h
      have ha := h 0 (by omega)
      have hb := h 1 (by omega)
      have hc := h 2 (by omega)
      have hd := h 3 (by omega)
      simp only [List.getD_cons_zero, List.getD_cons_succ] at ha hb hc hd
      simp [decodeVarLen, ha, hb, hc, hd]
    · intro j h4 _ hpre hj
      interval_cases j
      · simp only [List.getD_cons_zero] at hj
        exact ⟨a &&& 127, by simp [decodeVarLen, hj], by omega, by omega⟩
      · have ha := hpre 0 (by omega)
        simp only [List.getD_cons_zero] at ha
        simp only [List.getD_cons_succ, List.getD_cons_zero] at hj
        exact ⟨(a &&& 127) + 128 * (b &&& 127), by simp [decodeVarLen, ha, hj], by omega, by omega⟩
      · have ha := hpre 0 (by omega)
        have hb := hpre 1 (by omega)
        simp only [List.getD_cons_zero, List.getD_cons_succ] at ha hb
        simp only [List.getD_cons_succ, List.getD_cons_zero] at hj
        exact ⟨(a &&& 127) + 128 * (b &&& 127) + 128 ^ 2 * (c &&& 127),
          by simp [decodeVarLen, ha, hb, hj], by omega, by omega⟩
      · have ha := hpre 0 (by omega)
        have hb := hpre 1 (by omega)
        have hc := hpre 2 (by omega)
        simp only [List.getD_cons_zero, List.getD_cons_succ] at ha hb hc
        simp only [List.getD_cons_succ, List.getD_cons_zero] at hj
        exact ⟨(a &&& 127) + 128 * (b &&& 127) + 128 ^ 2 * (c &&& 127) + 128 ^ 3 * (d &&& 127),
          by simp [decodeVarLen, ha, hb, hc, hj], by omega, by omega⟩
    · intro hlen
      simp only [List.length_cons] at hlen
      omega

/-- Counterexample for C3 as stated: the input consisting of a single
continuation byte is not among the all-four-continuation inputs, yet
decoding does not stop at a byte with bit 7 clear and consume 1 to 4
bytes — it reports `needMoreBytes`. -/
theorem varlen_decode_rule_cex : decodeVarLen [128] = .error .needMoreBytes := rfl

/-- Witness for C3: four continuation bytes fail with `malformedLength`. -/
theorem varlen_decode_rule_witness :
    decodeVarLen [128, 128, 128, 128] = .error .malformedLength :=
  (varlen_decode_rule [128, 128, 128, 128]).1 (by decide)

theorem optField_fits_none (tvb : List Nat) (off : Nat) (present : Bool)
    (h : optFieldFits tvb off present = none) :
    optField tvb off present = .error .boundsError := by
  cases present with
  | false => simp [optFieldFits] at h
  | true =>
    simp only [optFieldFits, if_true] at h
    simp only [optField, if_true]
    by_cases h1 : off + 1 < tvb.length
    · rw [if_pos h1] at h
      by_cases h2 : off + 2 + (tvb.getD off 0 * 256 + tvb.getD (off + 1) 0) ≤ tvb.length
      · rw [if_pos h2] at h
        cases h
      · rw [show tvb_get_ntohs tvb off
            = .ok (tvb.getD off 0 * 256 + tvb.getD (off + 1) 0) from by
          simp only [tvb_get_ntohs]
          rw [if_pos h1]]
        dsimp only
        rw [show tvb_get_bytes tvb (off + 2) (tvb.getD off 0 * 256 + tvb.getD (off + 1) 0)
            = .error .boundsError from by
          simp only [tvb_get_bytes]
          rw [if_neg (by omega)]]
    · rw [show tvb_get_ntohs tvb off = .error .boundsError from by
        simp only [tvb_get_ntohs]
        rw [if_neg h1]]

theorem optField_fits_some (tvb : List Nat) (off : Nat) (present : Bool) (o2 : Nat)
    (h : optFieldFits tvb off present = some o2) :
    ∃ u, optField tvb off present = .ok (u, o2) := by
  cases present with
  | false =>
    simp only [optFieldFits, Bool.false_eq_true, if_false, Option.some.injEq] at h
    subst h
    exact ⟨none, rfl⟩
  | true =>
    simp only [optFieldFits, if_true] at h
    by_cases h1 : off + 1 < tvb.length
    · rw [if_pos h1] at h
      by_cases h2 : off + 2 + (tvb.getD off 0 * 256 + tvb.getD (off + 1) 0) ≤ tvb.length
      · rw [if_pos h2] at h
        obtain rfl := Option.some.inj h
        refine ⟨some (tvb.getD off 0 * 256 + tvb.getD (off + 1) 0,
          (tvb.drop (off + 2)).take (tvb.getD off 0 * 256 + tvb.getD (off + 1) 0)), ?_⟩
        simp only [optField, if_true]
        rw [show tvb_get_ntohs tvb off
            = .ok (tvb.getD off 0 * 256 + tvb.getD (off + 1) 0) from by
          simp only [tvb_get_ntohs]
          rw [if_pos h1]]
        dsimp only
        rw [show tvb_get_bytes tvb (off + 2) (tvb.getD off 0 * 256 + tvb.getD (off + 1) 0)
            = .ok ((tvb.drop (off + 2)).take (tvb.getD off 0 * 256 + tvb.getD (off + 1) 0))
            from by
          simp only [tvb_get_bytes]
          rw [if_pos h2]]
      · rw [if_neg h2] at h
        cases h
    · rw [if_neg h1] at h
      cases h

theorem signed_len_err_of_not_fits (tvb : List Nat) (off : Nat) (len : Int)
    (h : signedLenFits tvb off len = false) :
    tvb_get_signed_len tvb off len = .error .boundsError := by
  unfold signedLenFits at h
  unfold tvb_get_signed_len
  by_cases h1 : len = -1
  · rw [if_pos h1] at h ⊢
    simp only [decide_eq_false_iff_not] at h
    rw [if_neg h]
  · rw [if_neg h1] at h ⊢
    by_cases h2 : len < 0
    · rw [if_pos h2]
    · rw [if_neg h2] at h ⊢
      simp only [decide_eq_false_iff_not] at h
      simp only [tvb_get_bytes]
      rw [if_neg h]

/-- A CONNECT whose layout does not fit — any of its length-prefixed
or fixed-width fields would advance the cursor past the frame's end —
is rejected with the bounds error. -/
theorem connectBody_err_of_not_fits (tvb : List Nat) (off : Nat) (st : ConnState)
    (h : connectFits tvb off = false) :
    (connectBody tvb off st).1 = .error .boundsError := by
  unfold connectFits at h
  dsimp only at h
  unfold connectBody
  by_cases h1 : off + 1 < tvb.length
  · rw [if_pos h1] at h
    set protoLen := tvb.getD off 0 * 256 + tvb.getD (off + 1) 0 with hpl
    rw [show tvb_get_ntohs tvb off = .ok protoLen from by
      simp only [tvb_get_ntohs]
      rw [if_pos h1]]
    dsimp only
    by_cases h2 : off + 2 + protoLen ≤ tvb.length
    · rw [if_pos h2] at h
      rw [show tvb_get_bytes tvb (off + 2) protoLen
          = .ok ((tvb.drop (off + 2)).take protoLen) from by
        simp only [tvb_get_bytes]
        rw [if_pos h2]]
      dsimp only
      by_cases h3 : off + 2 + protoLen < tvb.length
      · rw [if_pos h3] at h
        rw [show tvb_get_guint8 tvb (off + 2 + protoLen)
            = .ok (tvb.getD (off + 2 + protoLen) 0) from by
          simp only [tvb_get_guint8]
          rw [if_pos h3]]
        dsimp only
        by_cases h4 : off + 2 + protoLen + 1 < tvb.length
        · rw [if_pos h4] at h
          set conFlags := tvb.getD (off + 2 + protoLen + 1) 0 with hcf
          rw [show tvb_get_guint8 tvb (off + 2 + protoLen + 1) = .ok conFlags from by
            simp only [tvb_get_guint8]
            rw [if_pos h4]]
          dsimp only
          by_cases h5 : off + 2 + protoLen + 1 + 1 + 1 < tvb.length
          · rw [if_pos h5] at h
            rw [show tvb_get_ntohs tvb (off + 2 + protoLen + 1 + 1)
                = .ok (tvb.getD (off + 2 + protoLen + 1 + 1) 0 * 256
                    + tvb.getD (off + 2 + protoLen + 1 + 1 + 1) 0) from by
              simp only [tvb_get_ntohs]
              rw [if_pos h5]]
            dsimp only
            by_cases h6 : off + 2 + protoLen + 1 + 3 + 1 < tvb.length
            · rw [if_pos h6] at h
              set cidLen := tvb.getD (off + 2 + protoLen + 1 + 3) 0 * 256
                  + tvb.getD (off + 2 + protoLen + 1 + 3 + 1) 0 with hcl
              rw [show tvb_get_ntohs tvb (off + 2 + protoLen + 1 + 3) = .ok cidLen from by
                simp only [tvb_get_ntohs]
                rw [if_pos h6]]
              dsimp only
              by_cases h7 : off + 2 + protoLen + 1 + 5 + cidLen ≤ tvb.length
              · rw [if_pos h7] at h
                rw [show tvb_get_bytes tvb (off + 2 + protoLen + 1 + 5) cidLen
                    = .ok ((tvb.drop (off + 2 + protoLen + 1 + 5)).take cidLen) from by
                  simp only [tvb_get_bytes]
                  rw [if_pos h7]]
                dsimp only
                cases hf8 : optFieldFits tvb (off + 2 + protoLen + 1 + 5 + cidLen)
                    (conFlags &&& 4 != 0) with
                | none =>
                  rw [optField_fits_none _ _ _ hf8]
                | some o2 =>
                  rw [hf8] at h
                  dsimp only at h
                  obtain ⟨u8, hu8⟩ := optField_fits_some _ _ _ _ hf8
                  rw [hu8]
                  dsimp only
                  cases hf9 : optFieldFits tvb o2 (conFlags &&& 4 != 0) with
                  | none =>
                    rw [optField_fits_none _ _ _ hf9]
                  | some o3 =>
                    rw [hf9] at h
                    dsimp only at h
                    obtain ⟨u9, hu9⟩ := optField_fits_some _ _ _ _ hf9
                    rw [hu9]
                    dsimp only
                    cases hf10 : optFieldFits tvb o3
                        ((conFlags &&& 128 != 0) && decide (o3 < tvb.length)) with
                    | none =>
                      rw [optField_fits_none _ _ _ hf10]
                    | some o4 =>
                      rw [hf10] at h
                      dsimp only at h
                      obtain ⟨u10, hu10⟩ := optField_fits_some _ _ _ _ hf10
                      rw [hu10]
                      dsimp only
                      cases hf11 : optFieldFits tvb o4
                          ((conFlags &&& 64 != 0) && decide (o4 < tvb.length)) with
                      | none =>
                        rw [optField_fits_none _ _ _ hf11]
                      | some o5 =>
                        rw [hf11] at h
                        dsimp only at h
                        cases h
              · rw [show tvb_get_bytes tvb (off + 2 + protoLen + 1 + 5) cidLen
                    = .error .boundsError from by
                  simp only [tvb_get_bytes]
                  rw [if_neg h7]]
            · rw [show tvb_get_ntohs tvb (off + 2 + protoLen + 1 + 3)
                  = .error .boundsError from by
                simp only [tvb_get_ntohs]
                rw [if_neg h6]]
          · rw [show tvb_get_ntohs tvb (off + 2 + protoLen + 1 + 1)
                = .error .boundsError from by
              simp only [tvb_get_ntohs]
              rw [if_neg h5]]
        · rw [show tvb_get_guint8 tvb (off + 2 + protoLen + 1) = .error .boundsError from by
            simp only [tvb_get_guint8]
            rw [if_neg h4]]
      · rw [show tvb_get_guint8 tvb (off + 2 + protoLen) = .error .boundsError from by
          simp only [tvb_get_guint8]
          rw [if_neg h3]]
    · rw [show tvb_get_bytes tvb (off + 2) protoLen = .error .boundsError from by
        simp only [tvb_get_bytes]
        rw [if_neg h2]]
  · rw [show tvb_get_ntohs tvb off = .error .boundsError from by
      simp only [tvb_get_ntohs]
      rw [if_neg h1]]

/-- A PUBLISH whose layout does not fit — the topic, the MessageId read
or a negative application-message length — is rejected with the bounds
error. -/
theorem publishBody_err_of_not_fits (tvb : List Nat) (fixedHdr off msg_len : Nat)
    (h : publishFits tvb fixedHdr off msg_len = false) :
    publishBody tvb fixedHdr off msg_len = .error .boundsError := by
  unfold publishFits at h
  dsimp only at h
  unfold publishBody
  by_cases h1 : off + 1 < tvb.length
  · rw [if_pos h1] at h
    set topicLen := tvb.getD off 0 * 256 + tvb.getD (off + 1) 0 with htl
    rw [show tvb_get_ntohs tvb off = .ok topicLen from by
      simp only [tvb_get_ntohs]
      rw [if_pos h1]]
    dsimp only
    by_cases h2 : off + 2 + topicLen ≤ tvb.length
    · rw [if_pos h2] at h
      rw [show tvb_get_bytes tvb (off + 2) topicLen
          = .ok ((tvb.drop (off + 2)).take topicLen) from by
        simp only [tvb_get_bytes]
        rw [if_pos h2]]
      dsimp only
      by_cases hq : fixedHdr &&& 6 ≠ 0
      · rw [if_pos hq] at h ⊢
        by_cases h3 : off + 2 + topicLen + 1 < tvb.length
        · rw [if_pos h3] at h
          rw [show tvb_get_ntohs tvb (off + 2 + topicLen)
              = .ok (tvb.getD (off + 2 + topicLen) 0 * 256
                  + tvb.getD (off + 2 + topicLen + 1) 0) from by
            simp only [tvb_get_ntohs]
            rw [if_pos h3]]
          dsimp only
          rw [signed_len_err_of_not_fits tvb (off + 2 + topicLen + 2)
            ((msg_len : Int) - 2 - topicLen - 2) h]
        · rw [show tvb_get_ntohs tvb (off + 2 + topicLen) = .error .boundsError from by
            simp only [tvb_get_ntohs]
            rw [if_neg h3]]
      · rw [if_neg hq] at h ⊢
        rw [signed_len_err_of_not_fits tvb (off + 2 + topicLen)
          ((msg_len : Int) - 2 - topicLen) h]
    · rw [show tvb_get_bytes tvb (off + 2) topicLen = .error .boundsError from by
        simp only [tvb_get_bytes]
        rw [if_neg h2]]
  · rw [show tvb_get_ntohs tvb off = .error .boundsError from by
      simp only [tvb_get_ntohs]
      rw [if_neg h1]]

/-- C4: a CONNECT or PUBLISH frame in which any length-prefixed
sub-field's declared length (protocol name, client id, will topic, will
message, user name, password, or topic) would advance the decode cursor
past the frame's end, or in which the running remaining-bytes counter
would go negative (a fixed-width read — version byte, connect flags,
keep-alive, MessageId — crossing the frame's end, or a negative
application-message length), is rejected with the bounds error
(the code's TruncatedFrame mechanism) rather than producing a decoded
packet.  `connectFits` and `publishFits` walk the layouts purely over
the frame bytes and are false exactly in those situations; the same
overruns inside the SUBSCRIBE/UNSUBSCRIBE entry loops are the
non-splitting regions covered by the underrun theorem. -/
theorem mqtt_truncated_frame (tvb : List Nat) (st : ConnState) (b0 msg_len k : Nat)
    (h0 : tvb_get_guint8 tvb 0 = .ok b0)
    (hlen : decodeVarLen (tvb.drop 1) = .ok (msg_len, k))
    (hfits : (b0 >>> 4 = 1 ∧ connectFits tvb (1 + k) = false)
           ∨ (b0 >>> 4 = 3 ∧ publishFits tvb b0 (1 + k) msg_len = false)) :
    (dissect_mqtt tvb st).1 = .error .boundsError := by
  rw [dissect_eq tvb st b0 msg_len k h0 hlen]
  rcases hfits with ⟨ht, hfit⟩ | ⟨ht, hfit⟩
  · have hbody : dissectBody tvb b0 (1 + k) msg_len st = connectBody tvb (1 + k) st := by
      simp [dissectBody, ht]
    rw [hbody]
    rcases hc : connectBody tvb (1 + k) st with ⟨res, st3⟩
    have herr := connectBody_err_of_not_fits tvb (1 + k) st hfit
    rw [hc] at herr
    dsimp only at herr
    subst herr
    rfl
  · have hbody : dissectBody tvb b0 (1 + k) msg_len st
        = (publishBody tvb b0 (1 + k) msg_len, st) := by
      simp [dissectBody, ht]
    rw [hbody, publishBody_err_of_not_fits tvb b0 (1 + k) msg_len hfit]

/-- Witness for C4: a CONNECT whose PasswdLen field (the last
length-prefixed sub-field) declares 9 bytes with none remaining, and a
QoS-1 PUBLISH whose topic fits but whose MessageId read crosses the
frame's end, are both rejected. -/
theorem mqtt_truncated_frame_witness :
    (dissect_mqtt [16, 17, 0, 4, 77, 81, 84, 84, 4, 194, 0, 60, 0, 0, 0, 1, 97, 0, 9]
        ⟨0⟩).1 = .error .boundsError ∧
    (dissect_mqtt [50, 3, 0, 1, 97] ⟨0⟩).1 = .error .boundsError :=
  ⟨mqtt_truncated_frame [16, 17, 0, 4, 77, 81, 84, 84, 4, 194, 0, 60, 0, 0, 0, 1, 97, 0, 9]
     ⟨0⟩ 16 17 1 rfl rfl (Or.inl ⟨rfl, by decide⟩),
   mqtt_truncated_frame [50, 3, 0, 1, 97] ⟨0⟩ 50 3 1 rfl rfl
     (Or.inr ⟨rfl, by decide⟩)⟩

theorem decodeVarLen_take4 (bs : List Nat) : decodeVarLen bs = decodeVarLen (bs.take 4) := by
  rcases bs with _ | ⟨a, _ | ⟨b, _ | ⟨c, _ | ⟨d, t⟩⟩⟩⟩
  · rfl
  · rfl
  · rfl
  · rfl
  · show decodeVarLen (a :: b :: c :: d :: t) = decodeVarLen (a :: b :: c :: d :: [])
    by_cases h0 : a &&& 128 = 0 <;> by_cases h1 : b &&& 128 = 0 <;>
      by_cases h2 : c &&& 128 = 0 <;> by_cases h3 : d &&& 128 = 0 <;>
      simp [decodeVarLen, h0, h1, h2, h3]

/-- C5: the length probe reports a total frame length of
1 + len_bytes + remaining_length, and its result is a pure function of
at most the first 5 bytes of the buffered sequence. -/
theorem mqtt_pdu_len_rule (bs : List Nat) :
    get_mqtt_pdu_len bs = get_mqtt_pdu_len (bs.take 5) ∧
    (∀ v k, decodeVarLen (bs.drop 1) = .ok (v, k) →
        get_mqtt_pdu_len bs = .ok (1 + k + v)) := by
  constructor
  · unfold get_mqtt_pdu_len
    have h54 : (bs.take 5).drop 1 = (bs.drop 1).take 4 := by
      rcases bs with _ | ⟨a, t⟩
      · rfl
      · simp
    rw [h54, ← decodeVarLen_take4]
  · intro v k h
    unfold get_mqtt_pdu_len
    rw [h]
    dsimp only
    congr 1
    omega

/-- Witness for C5: a 2-byte PINGREQ-sized probe gives total length 2. -/
theorem mqtt_pdu_len_rule_witness : get_mqtt_pdu_len [16, 0] = .ok (1 + 1 + 0) :=
  (mqtt_pdu_len_rule [16, 0]).2 0 1 rfl

theorem guint8_ok_bound {tvb : List Nat} {off x : Nat}
    (h : tvb_get_guint8 tvb off = .ok x) : off < tvb.length := by
  by_cases hb : off < tvb.length
  · exact hb
  · simp [tvb_get_guint8, hb] at h

theorem ntohs_ok_bound {tvb : List Nat} {off x : Nat}
    (h : tvb_get_ntohs tvb off = .ok x) : off + 2 ≤ tvb.length := by
  by_cases hb : off + 1 < tvb.length
  · omega
  · simp [tvb_get_ntohs, hb] at h

theorem get_bytes_ok {tvb : List Nat} {off n : Nat} {s : List Nat}
    (h : tvb_get_bytes tvb off n = .ok s) :
    off + n ≤ tvb.length ∧ s = (tvb.drop off).take n := by
  by_cases hb : off + n ≤ tvb.length
  · simp only [tvb_get_bytes, if_pos hb, Except.ok.injEq] at h
    exact ⟨hb, h.symm⟩
  · simp [tvb_get_bytes, hb] at h

theorem signed_len_ok {tvb : List Nat} {off : Nat} {len : Int} {s : List Nat}
    (h : tvb_get_signed_len tvb off len = .ok s) :
    (len = -1 ∧ off ≤ tvb.length ∧ s = tvb.drop off) ∨
    (0 ≤ len ∧ off + len.toNat ≤ tvb.length ∧ s = (tvb.drop off).take len.toNat) := by
  unfold tvb_get_signed_len at h
  by_cases h1 : len = -1
  · rw [if_pos h1] at h
    by_cases h2 : off ≤ tvb.length
    · rw [if_pos h2] at h
      exact Or.inl ⟨h1, h2, (Except.ok.inj h).symm⟩
    · rw [if_neg h2] at h
      cases h
  · rw [if_neg h1] at h
    by_cases h2 : len < 0
    · rw [if_pos h2] at h
      cases h
    · rw [if_neg h2] at h
      obtain ⟨hb, hs⟩ := get_bytes_ok h
      exact Or.inr ⟨by omega, hb, hs⟩

theorem publishBody_layout (tvb : List Nat) (b0 off msg_len : Nat) (body : PacketBody)
    (hframe : tvb.length = off + msg_len)
    (hok : publishBody tvb b0 off msg_len = .ok body) :
    ∃ d, body = .publish d ∧
      tvb_get_ntohs tvb off = .ok d.topicLen ∧
      d.topic = (tvb.drop (off + 2)).take d.topicLen ∧
      (d.msgId.isSome ↔ b0 &&& 6 ≠ 0) ∧
      d.message.length = msg_len - 2 - d.topicLen - (if b0 &&& 6 ≠ 0 then 2 else 0) := by
  unfold publishBody at hok
  cases hnt : tvb_get_ntohs tvb off with
  | error e =>
    rw [hnt] at hok
    cases hok
  | ok topicLen =>
    rw [hnt] at hok
    dsimp only at hok
    cases htp : tvb_get_bytes tvb (off + 2) topicLen with
    | error e =>
      rw [htp] at hok
      cases hok
    | ok topic =>
      rw [htp] at hok
      dsimp only at hok
      obtain ⟨htpb, htps⟩ := get_bytes_ok htp
      by_cases hq : b0 &&& 6 ≠ 0
      · rw [if_pos hq] at hok
        cases hmi : tvb_get_ntohs tvb (off + 2 + topicLen) with
        | error e =>
          rw [hmi] at hok
          cases hok
        | ok msgId =>
          rw [hmi] at hok
          dsimp only at hok
          have hmib := ntohs_ok_bound hmi
          cases hms : tvb_get_signed_len tvb (off + 2 + topicLen + 2)
              ((msg_len : Int) - 2 - topicLen - 2) with
          | error e =>
            rw [hms] at hok
            cases hok
          | ok msg =>
            rw [hms] at hok
            dsimp only at hok
            cases hok
            refine ⟨⟨topicLen, topic, some msgId, msg⟩, rfl, rfl, htps, by simp [hq], ?_⟩
            rcases signed_len_ok hms with ⟨hm1, _, _⟩ | ⟨hpos, hbnd, hmsg⟩
            · omega
            · rw [hmsg]
              simp only [List.length_take, List.length_drop]
              rw [if_pos hq]
              omega
      · rw [if_neg hq] at hok
        cases hms : tvb_get_signed_len tvb (off + 2 + topicLen)
            ((msg_len : Int) - 2 - topicLen) with
        | error e =>
          rw [hms] at hok
          cases hok
        | ok msg =>
          rw [hms] at hok
          dsimp only at hok
          cases hok
          refine ⟨⟨topicLen, topic, none, msg⟩, rfl, rfl, htps, by simp [hq], ?_⟩
          rcases signed_len_ok hms with ⟨hm1, _, _⟩ | ⟨hpos, hbnd, hmsg⟩
          · omega
          · rw [hmsg]
            simp only [List.length_take, List.length_drop]
            rw [if_neg hq]
            omega

/-- C6: a successfully dissected PUBLISH frame has TopicLen(u16) and
Topic first; a 2-byte MessageId exactly when the QoS bits of the fixed
header are non-zero; and an application message of exactly
remaining_length − 2 − topic_len bytes, minus a further 2 when
QoS > 0. -/
theorem mqtt_publish_layout (tvb : List Nat) (st : ConnState) (b0 msg_len k : Nat)
    (pkt : DecodedPacket) (st2 : ConnState)
    (h0 : tvb_get_guint8 tvb 0 = .ok b0)
    (htype : b0 >>> 4 = 3)
    (hlen : decodeVarLen (tvb.drop 1) = .ok (msg_len, k))
    (hframe : tvb.length = 1 + k + msg_len)
    (hok : dissect_mqtt tvb st = (.ok pkt, st2)) :
    ∃ d, pkt.body = .publish d ∧
      tvb_get_ntohs tvb (1 + k) = .ok d.topicLen ∧
      d.topic = (tvb.drop (1 + k + 2)).take d.topicLen ∧
      (d.msgId.isSome ↔ b0 &&& 6 ≠ 0) ∧
      d.message.length = msg_len - 2 - d.topicLen - (if b0 &&& 6 ≠ 0 then 2 else 0) := by
  rw [dissect_eq tvb st b0 msg_len k h0 hlen] at hok
  have hbody : dissectBody tvb b0 (1 + k) msg_len st
      = (publishBody tvb b0 (1 + k) msg_len, st) := by
    simp [dissectBody, htype]
  rw [hbody] at hok
  cases hp : publishBody tvb b0 (1 + k) msg_len with
  | error e =>
    rw [hp] at hok
    cases hok
  | ok body =>
    rw [hp] at hok
    dsimp only at hok
    obtain ⟨h1, h2⟩ := Prod.mk.injEq .. ▸ hok
    cases h1
    exact publishBody_layout tvb b0 (1 + k) msg_len body (by omega) hp

/-- Witness for C6: a QoS-1 PUBLISH with topic abc, MessageId 10 and an
empty application message. -/
theorem mqtt_publish_layout_witness :
    ∃ d, (⟨3, FlagLayout.publishFlags false 1 false, 7,
            PacketBody.publish ⟨3, [97, 98, 99], some 10, []⟩⟩ : DecodedPacket).body
          = .publish d ∧
      tvb_get_ntohs [50, 7, 0, 3, 97, 98, 99, 0, 10] (1 + 1) = .ok d.topicLen ∧
      d.topic = (([50, 7, 0, 3, 97, 98, 99, 0, 10] : List Nat).drop (1 + 1 + 2)).take d.topicLen ∧
      (d.msgId.isSome ↔ 50 &&& 6 ≠ 0) ∧
      d.message.length = 7 - 2 - d.topicLen - (if 50 &&& 6 ≠ 0 then 2 else 0) :=
  mqtt_publish_layout [50, 7, 0, 3, 97, 98, 99, 0, 10] ⟨0⟩ 50 7 1
    ⟨3, FlagLayout.publishFlags false 1 false, 7,
      PacketBody.publish ⟨3, [97, 98, 99], some 10, []⟩⟩ ⟨0⟩ rfl rfl rfl rfl rfl

theorem dissectBody_state_const (tvb : List Nat) (b0 off ml : Nat) (st : ConnState)
    (ht : b0 >>> 4 ≠ 1) : (dissectBody tvb b0 off ml st).2 = st := by
  unfold dissectBody
  dsimp only
  rw [if_neg ht]
  split_ifs <;> rfl

theorem connectBody_ok (tvb : List Nat) (off : Nat) (st : ConnState)
    (body : PacketBody) (st2 : ConnState)
    (hok : connectBody tvb off st = (.ok body, st2)) :
    ∃ d, body = .connect d ∧ st2 = ⟨d.protoVersion⟩ ∧
      tvb_get_guint8 tvb (off + 2 + d.protoNameLen) = .ok d.protoVersion := by
  unfold connectBody at hok
  cases h1 : tvb_get_ntohs tvb off with
  | error e =>
    rw [h1] at hok
    simp at hok
  | ok protoLen =>
    rw [h1] at hok
    dsimp only at hok
    cases h2 : tvb_get_bytes tvb (off + 2) protoLen with
    | error e =>
      rw [h2] at hok
      simp at hok
    | ok protoName =>
      rw [h2] at hok
      dsimp only at hok
      cases h3 : tvb_get_guint8 tvb (off + 2 + protoLen) with
      | error e =>
        rw [h3] at hok
        simp at hok
      | ok ver =>
        rw [h3] at hok
        dsimp only at hok
        cases h4 : tvb_get_guint8 tvb (off + 2 + protoLen + 1) with
        | error e =>
          rw [h4] at hok
          simp at hok
        | ok conFlags =>
          rw [h4] at hok
          dsimp only at hok
          cases h5 : tvb_get_ntohs tvb (off + 2 + protoLen + 1 + 1) with
          | error e =>
            rw [h5] at hok
            simp at hok
          | ok keepAlive =>
            rw [h5] at hok
            dsimp only at hok
            cases h6 : tvb_get_ntohs tvb (off + 2 + protoLen + 1 + 3) with
            | error e =>
              rw [h6] at hok
              simp at hok
            | ok cidLen =>
              rw [h6] at hok
              dsimp only at hok
              cases h7 : tvb_get_bytes tvb (off + 2 + protoLen + 1 + 5) cidLen with
              | error e =>
                rw [h7] at hok
                simp at hok
              | ok cid =>
                rw [h7] at hok
                dsimp only at hok
                cases h8 : optField tvb (off + 2 + protoLen + 1 + 5 + cidLen)
                    (conFlags &&& 4 != 0) with
                | error e =>
                  rw [h8] at hok
                  simp at hok
                | ok p8 =>
                  obtain ⟨willTopic, o2⟩ := p8
                  rw [h8] at hok
                  dsimp only at hok
                  cases h9 : optField tvb o2 (conFlags &&& 4 != 0) with
                  | error e =>
                    rw [h9] at hok
                    simp at hok
                  | ok p9 =>
                    obtain ⟨willMsg, o3⟩ := p9
                    rw [h9] at hok
                    dsimp only at hok
                    cases h10 : optField tvb o3
                        ((conFlags &&& 128 != 0) && decide (o3 < tvb.length)) with
                    | error e =>
                      rw [h10] at hok
                      simp at hok
                    | ok p10 =>
                      obtain ⟨user, o4⟩ := p10
                      rw [h10] at hok
                      dsimp only at hok
                      cases h11 : optField tvb o4
                          ((conFlags &&& 64 != 0) && decide (o4 < tvb.length)) with
                      | error e =>
                        rw [h11] at hok
                        simp at hok
                      | ok p11 =>
                        obtain ⟨pass, o5⟩ := p11
                        rw [h11] at hok
                        dsimp only at hok
                        obtain ⟨hb, hst⟩ := Prod.mk.injEq .. ▸ hok
                        cases hb
                        exact ⟨⟨protoLen, protoName, ver, conFlags, keepAlive, cidLen, cid,
                          willTopic, willMsg, user, pass⟩, rfl, hst.symm, h3⟩

/-- C7: dissecting a CONNECT frame writes the frame's protocol-version
byte (located right after the protocol name) into the conversation's
stored `runtime_proto_version`; dissecting a frame of any other packet
type, successfully or not, leaves the conversation state unchanged. -/
theorem mqtt_connect_state_effect :
    (∀ tvb st b0, tvb_get_guint8 tvb 0 = .ok b0 → b0 >>> 4 ≠ 1 →
        (dissect_mqtt tvb st).2 = st) ∧
    (∀ tvb st b0 msg_len k pkt st2, tvb_get_guint8 tvb 0 = .ok b0 → b0 >>> 4 = 1 →
        decodeVarLen (tvb.drop 1) = .ok (msg_len, k) →
        dissect_mqtt tvb st = (.ok pkt, st2) →
        ∃ d, pkt.body = .connect d ∧ st2 = ⟨d.protoVersion⟩ ∧
          tvb_get_guint8 tvb (1 + k + 2 + d.protoNameLen) = .ok d.protoVersion) := by
  constructor
  · intro tvb st b0 h0 ht
    unfold dissect_mqtt
    rw [h0]
    cases hlen : decodeVarLen (tvb.drop 1) with
    | error e => rfl
    | ok p =>
      obtain ⟨ml, k⟩ := p
      dsimp only
      rcases hbody : dissectBody tvb b0 (1 + k) ml st with ⟨res, st3⟩
      have hst : st3 = st := by
        have hc := dissectBody_state_const tvb b0 (1 + k) ml st ht
        rw [hbody] at hc
        exact hc
      cases res <;> simp [hst]
  · intro tvb st b0 msg_len k pkt st2 h0 ht hlen hok
    rw [dissect_eq tvb st b0 msg_len k h0 hlen] at hok
    have hbody : dissectBody tvb b0 (1 + k) msg_len st = connectBody tvb (1 + k) st := by
      simp [dissectBody, ht]
    rw [hbody] at hok
    rcases hc : connectBody tvb (1 + k) st with ⟨res, st3⟩
    rw [hc] at hok
    cases res with
    | error e => simp at hok
    | ok body =>
      dsimp only at hok
      obtain ⟨h1, h2⟩ := Prod.mk.injEq .. ▸ hok
      cases h1
      obtain ⟨d, hbd, hst3, hv⟩ := connectBody_ok tvb (1 + k) st body st3 hc
      exact ⟨d, hbd, h2 ▸ hst3, hv⟩

/-- Witness for C7: a DISCONNECT frame leaves the state untouched, and
a v3.1.1 CONNECT writes version 4 into the conversation state. -/
theorem mqtt_connect_state_effect_witness :
    (dissect_mqtt [192, 0] ⟨7⟩).2 = (⟨7⟩ : ConnState) ∧
    (∃ d, (⟨1, FlagLayout.reserved4 0, 12, PacketBody.connect
          ⟨4, [77, 81, 84, 84], 4, 2, 60, 0, [], none, none, none, none⟩⟩
            : DecodedPacket).body = .connect d ∧
      (⟨4⟩ : ConnState) = ⟨d.protoVersion⟩ ∧
      tvb_get_guint8 [16, 12, 0, 4, 77, 81, 84, 84, 4, 2, 0, 60, 0, 0]
          (1 + 1 + 2 + d.protoNameLen) = .ok d.protoVersion) :=
  ⟨mqtt_connect_state_effect.1 [192, 0] ⟨7⟩ 192 rfl (by decide),
   mqtt_connect_state_effect.2 [16, 12, 0, 4, 77, 81, 84, 84, 4, 2, 0, 60, 0, 0] ⟨0⟩
     16 12 1
     ⟨1, FlagLayout.reserved4 0, 12, PacketBody.connect
       ⟨4, [77, 81, 84, 84], 4, 2, 60, 0, [], none, none, none, none⟩⟩
     ⟨4⟩ rfl rfl rfl rfl⟩

theorem optField_spec (tvb : List Nat) (off : Nat) (b : Bool)
    (u : Option (Nat × List Nat)) (off2 : Nat)
    (h : optField tvb off b = .ok (u, off2)) :
    u.isSome = b ∧ off2 = off + fieldSize u := by
  cases b with
  | false =>
    simp only [optField, Bool.false_eq_true, if_false, Except.ok.injEq, Prod.mk.injEq] at h
    obtain ⟨hu, ho⟩ := h
    subst hu
    subst ho
    simp [fieldSize]
  | true =>
    simp only [optField, if_true] at h
    cases h1 : tvb_get_ntohs tvb off with
    | error e =>
      rw [h1] at h
      cases h
    | ok len =>
      rw [h1] at h
      dsimp only at h
      cases h2 : tvb_get_bytes tvb (off + 2) len with
      | error e =>
        rw [h2] at h
        cases h
      | ok s =>
        rw [h2] at h
        dsimp only at h
        obtain ⟨hu, ho⟩ := Prod.mk.injEq .. ▸ Except.ok.inj h
        subst hu
        subst ho
        simp only [Option.isSome_some, fieldSize, true_and]
        omega

/-- C8: in a successfully dissected CONNECT, the UserName (resp.
Password) field is present if and only if its connect-flag bit is set
AND at least one byte remains in the frame at that field's offset; in
particular the guard makes a CONNECT whose flags are set but whose
bytes end right there dissect successfully with the field absent,
rather than erroring. -/
theorem mqtt_connect_user_pass_rule :
    (∀ (tvb : List Nat) (off : Nat) (b : Bool), tvb.length ≤ off →
        optField tvb off (b && decide (off < tvb.length)) = .ok (none, off)) ∧
    (∀ tvb off st d st2, connectBody tvb off st = (.ok (.connect d), st2) →
        ((d.userName.isSome = true ↔
            (d.connectFlags &&& 128 ≠ 0 ∧ userOff off d < tvb.length)) ∧
         (d.passwd.isSome = true ↔
            (d.connectFlags &&& 64 ≠ 0 ∧
              userOff off d + fieldSize d.userName < tvb.length)))) := by
  constructor
  · intro tvb off b hle
    have hd : decide (off < tvb.length) = false := by
      simp only [decide_eq_false_iff_not]
      omega
    rw [hd, Bool.and_false]
    rfl
  · intro tvb off st d st2 hok
    unfold connectBody at hok
    cases h1 : tvb_get_ntohs tvb off with
    | error e =>
      rw [h1] at hok
      simp at hok
    | ok protoLen =>
      rw [h1] at hok
      dsimp only at hok
      cases h2 : tvb_get_bytes tvb (off + 2) protoLen with
      | error e =>
        rw [h2] at hok
        simp at hok
      | ok protoName =>
        rw [h2] at hok
        dsimp only at hok
        cases h3 : tvb_get_guint8 tvb (off + 2 + protoLen) with
        | error e =>
          rw [h3] at hok
          simp at hok
        | ok ver =>
          rw [h3] at hok
          dsimp only at hok
          cases h4 : tvb_get_guint8 tvb (off + 2 + protoLen + 1) with
          | error e =>
            rw [h4] at hok
            simp at hok
          | ok conFlags =>
            rw [h4] at hok
            dsimp only at hok
            cases h5 : tvb_get_ntohs tvb (off + 2 + protoLen + 1 + 1) with
            | error e =>
              rw [h5] at hok
              simp at hok
            | ok keepAlive =>
              rw [h5] at hok
              dsimp only at hok
              cases h6 : tvb_get_ntohs tvb (off + 2 + protoLen + 1 + 3) with
              | error e =>
                rw [h6] at hok
                simp at hok
              | ok cidLen =>
                rw [h6] at hok
                dsimp only at hok
                cases h7 : tvb_get_bytes tvb (off + 2 + protoLen + 1 + 5) cidLen with
                | error e =>
                  rw [h7] at hok
                  simp at hok
                | ok cid =>
                  rw [h7] at hok
                  dsimp only at hok
                  cases h8 : optField tvb (off + 2 + protoLen + 1 + 5 + cidLen)
                      (conFlags &&& 4 != 0) with
                  | error e =>
                    rw [h8] at hok
                    simp at hok
                  | ok p8 =>
                    obtain ⟨willTopic, o2⟩ := p8
                    rw [h8] at hok
                    dsimp only at hok
                    cases h9 : optField tvb o2 (conFlags &&& 4 != 0) with
                    | error e =>
                      rw [h9] at hok
                      simp at hok
                    | ok p9 =>
                      obtain ⟨willMsg, o3⟩ := p9
                      rw [h9] at hok
                      dsimp only at hok
                      cases h10 : optField tvb o3
                          ((conFlags &&& 128 != 0) && decide (o3 < tvb.length)) with
                      | error e =>
                        rw [h10] at hok
                        simp at hok
                      | ok p10 =>
                        obtain ⟨user, o4⟩ := p10
                        rw [h10] at hok
                        dsimp only at hok
                        cases h11 : optField tvb o4
                            ((conFlags &&& 64 != 0) && decide (o4 < tvb.length)) with
                        | error e =>
                          rw [h11] at hok
                          simp at hok
                        | ok p11 =>
                          obtain ⟨pass, o5⟩ := p11
                          rw [h11] at hok
                          dsimp only at hok
                          obtain ⟨hb, hst⟩ := Prod.mk.injEq .. ▸ hok
                          obtain hd := PacketBody.connect.inj (Except.ok.inj hb)
                          subst hd
                          obtain ⟨_, ho2⟩ := optField_spec _ _ _ _ _ h8
                          obtain ⟨_, ho3⟩ := optField_spec _ _ _ _ _ h9
                          obtain ⟨hu, ho4⟩ := optField_spec _ _ _ _ _ h10
                          obtain ⟨hp, _⟩ := optField_spec _ _ _ _ _ h11
                          have huo : userOff off ⟨protoLen, protoName, ver, conFlags,
                              keepAlive, cidLen, cid, willTopic, willMsg, user, pass⟩ = o3 := by
                            simp only [userOff]
                            omega
                          constructor
                          · dsimp only
                            rw [hu, huo]
                            simp [Bool.and_eq_true, decide_eq_true_iff, bne_iff_ne]
                          · dsimp only
                            rw [hp, huo]
                            have : o3 + fieldSize user = o4 := by omega
                            rw [this]
                            simp [Bool.and_eq_true, decide_eq_true_iff, bne_iff_ne]

/-- Witness for C8: a CONNECT whose UserName and Password flags are set
(0xC2) but whose bytes end right after the ClientId dissects
successfully with both fields absent. -/
theorem mqtt_connect_user_pass_rule_witness :
    optField [99] 1 (true && decide (1 < 1)) = .ok (none, 1) ∧
    (((⟨4, [77, 81, 84, 84], 4, 194, 60, 0, [], none, none, none, none⟩
          : ConnectData).userName.isSome = true ↔
        (194 &&& 128 ≠ 0 ∧
          userOff 2 ⟨4, [77, 81, 84, 84], 4, 194, 60, 0, [], none, none, none, none⟩ < 14)) ∧
     ((⟨4, [77, 81, 84, 84], 4, 194, 60, 0, [], none, none, none, none⟩
          : ConnectData).passwd.isSome = true ↔
        (194 &&& 64 ≠ 0 ∧
          userOff 2 ⟨4, [77, 81, 84, 84], 4, 194, 60, 0, [], none, none, none, none⟩
            + fieldSize (⟨4, [77, 81, 84, 84], 4, 194, 60, 0, [], none, none, none,
                none⟩ : ConnectData).userName < 14))) :=
  ⟨mqtt_connect_user_pass_rule.1 [99] 1 true (by decide),
   mqtt_connect_user_pass_rule.2 [16, 12, 0, 4, 77, 81, 84, 84, 4, 194, 0, 60, 0, 0] 2 ⟨0⟩
     ⟨4, [77, 81, 84, 84], 4, 194, 60, 0, [], none, none, none, none⟩ ⟨4⟩ rfl⟩

theorem subscribeLoop_len (tvb : List Nat) :
    ∀ (n : Nat) (off : Nat) (m : Int), m.toNat = n →
      ∀ es, subscribeLoop tvb off m = .ok es → 3 * es.length ≤ m.toNat + 2 := by
  intro n
  induction n using Nat.strong_induction_on with
  | _ n ih =>
    intro off m hn es hok
    rw [subscribeLoop] at hok
    by_cases hpos : 0 < m
    · rw [dif_pos hpos] at hok
      cases h1 : tvb_get_ntohs tvb off with
      | error e =>
        rw [h1] at hok
        cases hok
      | ok sl =>
        rw [h1] at hok
        dsimp only at hok
        cases h2 : tvb_get_bytes tvb (off + 2) sl with
        | error e =>
          rw [h2] at hok
          cases hok
        | ok topic =>
          rw [h2] at hok
          dsimp only at hok
          cases h3 : tvb_get_guint8 tvb (off + 2 + sl) with
          | error e =>
            rw [h3] at hok
            cases hok
          | ok qos =>
            rw [h3] at hok
            dsimp only at hok
            cases h4 : subscribeLoop tvb (off + 2 + sl + 1) (m - 2 - sl - 1) with
            | error e =>
              rw [h4] at hok
              cases hok
            | ok rest =>
              rw [h4] at hok
              dsimp only at hok
              cases hok
              have hrec := ih (m - 2 - (sl : Int) - 1).toNat (by omega)
                (off + 2 + sl + 1) (m - 2 - (sl : Int) - 1) rfl rest h4
              simp only [List.length_cons]
              omega
    · rw [dif_neg hpos] at hok
      cases hok
      simp only [List.length_nil]
      omega

theorem unsubscribeLoop_len (tvb : List Nat) :
    ∀ (n : Nat) (off : Nat) (m : Int), m.toNat = n →
      ∀ es, unsubscribeLoop tvb off m = .ok es → 2 * es.length ≤ m.toNat + 1 := by
  intro n
  induction n using Nat.strong_induction_on with
  | _ n ih =>
    intro off m hn es hok
    rw [unsubscribeLoop] at hok
    by_cases hpos : 0 < m
    · rw [dif_pos hpos] at hok
      cases h1 : tvb_get_ntohs tvb off with
      | error e =>
        rw [h1] at hok
        cases hok
      | ok sl =>
        rw [h1] at hok
        dsimp only at hok
        cases h2 : tvb_get_bytes tvb (off + 2) sl with
        | error e =>
          rw [h2] at hok
          cases hok
        | ok topic =>
          rw [h2] at hok
          dsimp only at hok
          cases h4 : unsubscribeLoop tvb (off + 2 + sl) (m - 2 - sl) with
          | error e =>
            rw [h4] at hok
            cases hok
          | ok rest =>
            rw [h4] at hok
            dsimp only at hok
            cases hok
            have hrec := ih (m - 2 - (sl : Int)).toNat (by omega)
              (off + 2 + sl) (m - 2 - (sl : Int)) rfl rest h4
            simp only [List.length_cons]
            omega
    · rw [dif_neg hpos] at hok
      cases hok
      simp only [List.length_nil]
      omega

theorem subackLoop_len (tvb : List Nat) :
    ∀ (n : Nat) (off : Nat) (m : Int), m.toNat = n →
      ∀ cs, subackLoop tvb off m = .ok cs → cs.length = m.toNat := by
  intro n
  induction n using Nat.strong_induction_on with
  | _ n ih =>
    intro off m hn cs hok
    rw [subackLoop] at hok
    by_cases hpos : 0 < m
    · rw [dif_pos hpos] at hok
      cases h1 : tvb_get_guint8 tvb off with
      | error e =>
        rw [h1] at hok
        cases hok
      | ok q =>
        rw [h1] at hok
        dsimp only at hok
        cases h4 : subackLoop tvb (off + 1) (m - 1) with
        | error e =>
          rw [h4] at hok
          cases hok
        | ok rest =>
          rw [h4] at hok
          dsimp only at hok
          cases hok
          have hrec := ih (m - 1).toNat (by omega) (off + 1) (m - 1) rfl rest h4
          simp only [List.length_cons]
          omega
    · rw [dif_neg hpos] at hok
      cases hok
      simp only [List.length_nil]
      omega

/-- C9: the repeated-entry loops terminate: they return as soon as the
running counter is no longer positive, and each iteration strictly
decreases the counter — by at least 3 per SUBSCRIBE entry, at least 2
per UNSUBSCRIBE entry, and exactly 1 per SUBACK entry — which bounds
the number of decoded entries by the counter. -/
theorem mqtt_loop_termination :
    (∀ (tvb : List Nat) (off : Nat) (m : Int), m ≤ 0 →
        subscribeLoop tvb off m = .ok [] ∧ unsubscribeLoop tvb off m = .ok [] ∧
        subackLoop tvb off m = .ok []) ∧
    (∀ (tvb : List Nat) (off : Nat) (m : Int) es,
        subscribeLoop tvb off m = .ok es → 3 * es.length ≤ m.toNat + 2) ∧
    (∀ (tvb : List Nat) (off : Nat) (m : Int) es,
        unsubscribeLoop tvb off m = .ok es → 2 * es.length ≤ m.toNat + 1) ∧
    (∀ (tvb : List Nat) (off : Nat) (m : Int) cs,
        subackLoop tvb off m = .ok cs → cs.length = m.toNat) := by
  refine ⟨?_, ?_, ?_, ?_⟩
  · intro tvb off m hm
    refine ⟨?_, ?_, ?_⟩
    · rw [subscribeLoop, dif_neg (by omega)]
    · rw [unsubscribeLoop, dif_neg (by omega)]
    · rw [subackLoop, dif_neg (by omega)]
  · intro tvb off m es hok
    exact subscribeLoop_len tvb m.toNat off m rfl es hok
  · intro tvb off m es hok
    exact unsubscribeLoop_len tvb m.toNat off m rfl es hok
  · intro tvb off m cs hok
    exact subackLoop_len tvb m.toNat off m rfl cs hok

/-- Witness for C9: the loops stop at counter 0, and a SUBACK region of
2 bytes yields exactly 2 return codes. -/
theorem mqtt_loop_termination_witness :
    (subscribeLoop [] 0 0 = .ok [] ∧ unsubscribeLoop [] 0 0 = .ok [] ∧
      subackLoop [] 0 0 = .ok []) ∧
    ([5, 6] : List Nat).length = (2 : Int).toNat :=
  ⟨mqtt_loop_termination.1 [] 0 0 (by omega),
   mqtt_loop_termination.2.2.2 [144, 4, 0, 1, 5, 6] 4 2 [5, 6]
     (by rw [subackLoop, dif_pos (by omega)]
         rw [show tvb_get_guint8 [144, 4, 0, 1, 5, 6] 4 = .ok 5 from rfl]
         dsimp only
         rw [subackLoop, dif_pos (by omega)]
         rw [show tvb_get_guint8 [144, 4, 0, 1, 5, 6] 5 = .ok 6 from rfl]
         dsimp only
         rw [show ((2 : Int) - 1 - 1) = 0 from by omega]
         rw [subackLoop, dif_neg (by omega)])⟩

theorem connackFlag_reserved (b0 : Nat) (v : Nat) (ht : b0 >>> 4 = 2) :
    headerFlagInterp b0 v = .reserved4 (b0 &&& 15) := by
  simp [headerFlagInterp, ht]

/-- C10: CONNACK dissection never consults the stored protocol version:
the same frame dissects to the same result under any two conversation
states, and the first variable-header byte is always split by the 0xFE
reserved mask and the 0x01 SessionPresent mask, with the second byte as
the return code. -/
theorem mqtt_connack_version_independent :
    (∀ tvb st1 st2 b0, tvb_get_guint8 tvb 0 = .ok b0 → b0 >>> 4 = 2 →
        (dissect_mqtt tvb st1).1 = (dissect_mqtt tvb st2).1) ∧
    (∀ tvb st b0 msg_len k pkt st2 f c,
        tvb_get_guint8 tvb 0 = .ok b0 → b0 >>> 4 = 2 →
        decodeVarLen (tvb.drop 1) = .ok (msg_len, k) →
        tvb_get_guint8 tvb (1 + k) = .ok f →
        tvb_get_guint8 tvb (1 + k + 1) = .ok c →
        dissect_mqtt tvb st = (.ok pkt, st2) →
        pkt.body = .connack ⟨f &&& 254, f &&& 1, c⟩) := by
  constructor
  · intro tvb st1 st2 b0 h0 ht
    unfold dissect_mqtt
    rw [h0]
    cases hlen : decodeVarLen (tvb.drop 1) with
    | error e => rfl
    | ok p =>
      obtain ⟨ml, k⟩ := p
      dsimp only
      have hb1 : dissectBody tvb b0 (1 + k) ml st1 = (connackBody tvb (1 + k), st1) := by
        simp [dissectBody, ht]
      have hb2 : dissectBody tvb b0 (1 + k) ml st2 = (connackBody tvb (1 + k), st2) := by
        simp [dissectBody, ht]
      rw [hb1, hb2]
      cases connackBody tvb (1 + k) with
      | error e => rfl
      | ok body =>
        dsimp only
        rw [connackFlag_reserved b0 st1.runtime_proto_version ht,
          connackFlag_reserved b0 st2.runtime_proto_version ht]
  · intro tvb st b0 msg_len k pkt st2 f c h0 ht hlen hf hc hok
    rw [dissect_eq tvb st b0 msg_len k h0 hlen] at hok
    have hbody : dissectBody tvb b0 (1 + k) msg_len st = (connackBody tvb (1 + k), st) := by
      simp [dissectBody, ht]
    rw [hbody] at hok
    unfold connackBody at hok
    rw [hf] at hok
    dsimp only at hok
    rw [hc] at hok
    dsimp only at hok
    obtain ⟨h1, h2⟩ := Prod.mk.injEq .. ▸ hok
    cases h1
    rfl

/-- Witness for C10: the same CONNACK frame under a v3.1 state and a
v3.1.1 state gives identical results, split as reserved/SP plus the
return code. -/
theorem mqtt_connack_version_independent_witness :
    (dissect_mqtt [32, 2, 3, 5] ⟨3⟩).1 = (dissect_mqtt [32, 2, 3, 5] ⟨4⟩).1 ∧
    (⟨2, FlagLayout.reserved4 0, 2, PacketBody.connack ⟨2, 1, 5⟩⟩ : DecodedPacket).body
      = .connack ⟨3 &&& 254, 3 &&& 1, 5⟩ :=
  ⟨mqtt_connack_version_independent.1 [32, 2, 3, 5] ⟨3⟩ ⟨4⟩ 32 rfl rfl,
   mqtt_connack_version_independent.2 [32, 2, 3, 5] ⟨3⟩ 32 2 1
     ⟨2, FlagLayout.reserved4 0, 2, PacketBody.connack ⟨2, 1, 5⟩⟩ ⟨3⟩ 3 5
     rfl rfl rfl rfl rfl rfl⟩

end Mqtt
